import Mathlib

/-!
Verification of the `pynastran95` output-table parser and execution harness
(`src/pynastran95/parser.py`, `src/pynastran95/runner.py`) against its
natural-language specification.

The documents handled by the parser are plain text.  We embed them as lists
of characters; a document that has already been split into lines (Python
`str.splitlines()`) is a list of lines.  The parsers never perform arithmetic
on the floating-point fields they extract — they only test whether a token
converts via Python `float()` and store the converted value — so float fields
are kept as their raw tokens and conversion success is modelled by a boolean
predicate `isPyFloat` that follows the grammar accepted by CPython `float()`.
Integer fields (node ids, element ids, mode numbers) are converted, via a
model `pyInt?` of CPython `int()`.
-/

namespace PyNastran

/-- Line abbreviates a printed line of engine output, as a character list. -/
abbrev Line := List Char

/-- Token abbreviates one whitespace-separated field of a line. -/
abbrev Token := List Char

/-- lineOf converts a Lean string literal to a Line. -/
def lineOf (s : String) : Line := s.toList

/-- isPySpace models the ASCII whitespace class used by Python str.strip and
str.split with no arguments: space, tab, newline, carriage return, vertical
tab and form feed. -/
def isPySpace (c : Char) : Bool :=
  c = ' ' || c = '\t' || c = '\n' || c = '\r' || c = '\x0b' || c = '\x0c'

/-- pyStrip models Python str.strip(): removes leading and trailing
whitespace. -/
def pyStrip (l : List Char) : List Char :=
  ((l.dropWhile isPySpace).reverse.dropWhile isPySpace).reverse

/-- pySplit models Python str.split() with no arguments: split on runs of
whitespace, discarding empty fields. -/
def pySplit (l : List Char) : List Token :=
  (List.splitOnP isPySpace l).filter (fun t => !t.isEmpty)

/-- containsSub pat l models the Python substring test `pat in l`. -/
def containsSub (pat : List Char) : List Char → Bool
  | [] => pat.isPrefixOf []
  | c :: rest => pat.isPrefixOf (c :: rest) || containsSub pat rest

/-- vudRest checks the tail of a digit group in CPython numeric-literal
syntax: digits possibly separated by single underscores, each underscore
standing between two digits. -/
def vudRest : List Char → Bool
  | [] => true
  | '_' :: c :: rest => c.isDigit && vudRest rest
  | '_' :: [] => false
  | c :: rest => c.isDigit && vudRest rest

/-- vud checks a full digit group in CPython numeric-literal syntax:
nonempty, starts with a digit, underscores only between digits. -/
def vud : List Char → Bool
  | [] => false
  | c :: rest => c.isDigit && vudRest rest

/-- natOfDigits computes the value of a base-10 digit list (underscores
removed beforehand). -/
def natOfDigits (l : List Char) : Nat :=
  l.foldl (fun acc c => 10 * acc + (c.toNat - '0'.toNat)) 0

/-- pyIntCore parses an optionally signed digit group, the body of CPython
int() after whitespace stripping. -/
def pyIntCore : List Char → Option Int
  | '+' :: rest =>
      if vud rest then some (Int.ofNat (natOfDigits (rest.filter (· ≠ '_')))) else none
  | '-' :: rest =>
      if vud rest then some (-(Int.ofNat (natOfDigits (rest.filter (· ≠ '_'))))) else none
  | l =>
      if vud l then some (Int.ofNat (natOfDigits (l.filter (· ≠ '_')))) else none

/-- pyInt? models CPython int(str): strip whitespace, optional sign, base-10
digit group (with underscores); none models the ValueError raise.  Unicode
digit forms are outside the model. -/
def pyInt? (l : List Char) : Option Int := pyIntCore (pyStrip l)

/-- splitExp splits a float body at the first exponent marker e or E,
returning the mantissa and, when a marker is present, the exponent text. -/
def splitExp : List Char → List Char × Option (List Char)
  | [] => ([], none)
  | c :: rest =>
      if c = 'e' || c = 'E' then ([], some rest)
      else
        let (m, ex) := splitExp rest
        (c :: m, ex)

/-- splitDot splits a mantissa at the first decimal point, returning the
integer part and, when a point is present, the fraction text. -/
def splitDot : List Char → List Char × Option (List Char)
  | [] => ([], none)
  | c :: rest =>
      if c = '.' then ([], some rest)
      else
        let (ip, fp) := splitDot rest
        (c :: ip, fp)

/-- mantOk checks a CPython float mantissa (sign already removed): a digit
group, or integer and fraction digit groups around a decimal point with at
least one of them nonempty. -/
def mantOk (m : List Char) : Bool :=
  match splitDot m with
  | (ip, none) => vud ip
  | (ip, some fp) =>
      (ip.isEmpty || vud ip) && (fp.isEmpty || vud fp) && !(ip.isEmpty && fp.isEmpty)

/-- expOk checks a CPython float exponent: optional sign then a digit
group. -/
def expOk : List Char → Bool
  | '+' :: rest => vud rest
  | '-' :: rest => vud rest
  | l => vud l

/-- floatBody checks the body of CPython float() after whitespace stripping
and sign removal: the words inf, infinity or nan (case-insensitive), or a
mantissa with optional exponent. -/
def floatBody (r : List Char) : Bool :=
  let low := r.map Char.toLower
  if low = "inf".toList || low = "infinity".toList || low = "nan".toList then true
  else
    match splitExp r with
    | (m, none) => mantOk m
    | (m, some e) => mantOk m && expOk e

/-- isPyFloat models whether CPython float(str) succeeds on a token. -/
def isPyFloat (l : List Char) : Bool :=
  match pyStrip l with
  | '+' :: rest => floatBody rest
  | '-' :: rest => floatBody rest
  | s => floatBody s

/-- is_page_break embeds parser._is_page_break: the line starts with the
Fortran new-page carriage-control character 1. -/
def is_page_break : Line → Bool
  | [] => false
  | c :: _ => c = '1'

/-- is_double_space embeds parser._is_double_space: the line starts with the
Fortran double-space carriage-control character 0. -/
def is_double_space : Line → Bool
  | [] => false
  | c :: _ => c = '0'

/-- dropUntilContains returns the suffix of the line list starting at the
first line containing the pattern, or the empty list when no line does; it
embeds the Python idiom `while i < len(lines) and pat not in lines[i]:
i += 1`. -/
def dropUntilContains (pat : List Char) : List Line → List Line
  | [] => []
  | l :: rest => if containsSub pat l then l :: rest else dropUntilContains pat rest

/-- dispHeader is the displacement-table header phrase. -/
def dispHeader : List Char := "D I S P L A C E M E N T   V E C T O R".toList

/-- pointIdMark is the displacement column-header marker. -/
def pointIdMark : List Char := "POINT ID.".toList

/-- DisplacementResult embeds models.DisplacementResult; translation and
rotation triples are kept as raw float tokens (no arithmetic is performed on
them by the source). -/
structure DisplacementResult where
  node_ids : List Int
  translations : List (Token × Token × Token)
  rotations : List (Token × Token × Token)
  subcase : Int
deriving DecidableEq

/-- DispRow is one successfully converted displacement data row (source
lines 66-76 of parser.py). -/
structure DispRow where
  nid : Int
  t1 : Token
  t2 : Token
  t3 : Token
  r1 : Token
  r2 : Token
  r3 : Token
deriving DecidableEq

/-- dispRowParse embeds the conversion block of a displacement row: int on
field 0, float on fields 2-7 (field 1 is the point type, not converted);
none models the caught ValueError/IndexError. -/
def dispRowParse (parts : List Token) : Option DispRow :=
  match parts[0]?, parts[2]?, parts[3]?, parts[4]?, parts[5]?, parts[6]?, parts[7]? with
  | some p0, some p2, some p3, some p4, some p5, some p6, some p7 =>
      match pyInt? p0 with
      | some nid =>
          if isPyFloat p2 && isPyFloat p3 && isPyFloat p4 && isPyFloat p5 &&
              isPyFloat p6 && isPyFloat p7 then
            some ⟨nid, p2, p3, p4, p5, p6, p7⟩
          else none
      | none => none
  | _, _, _, _, _, _, _ => none

/-- pdRows embeds the displacement row-accumulation loop (parser.py lines
55-81): stop at a page-break or double-space line, skip blank lines, accept
rows with at least 8 fields that convert, and stop at the first row that is
short or fails conversion.  Returns the accepted rows and the unconsumed
suffix of lines. -/
def pdRows : List Line → List DispRow × List Line
  | [] => ([], [])
  | l :: rest =>
      if is_page_break l || is_double_space l then ([], l :: rest)
      else if (pyStrip l).isEmpty then pdRows rest
      else if (pySplit (pyStrip l)).length ≥ 8 then
        match dispRowParse (pySplit (pyStrip l)) with
        | some row => (row :: (pdRows rest).1, (pdRows rest).2)
        | none => ([], l :: rest)
      else ([], l :: rest)

/-- mkDispResult builds a DisplacementResult from accepted rows, mirroring
the three parallel appends of the source loop. -/
def mkDispResult (rows : List DispRow) (subcase : Int) : DisplacementResult :=
  { node_ids := rows.map (·.nid)
  , translations := rows.map (fun r => (r.t1, r.t2, r.t3))
  , rotations := rows.map (fun r => (r.r1, r.r2, r.r3))
  , subcase := subcase }

/-- pdOuter embeds the outer scanning loop of parse_displacements with an
explicit iteration budget; each iteration either advances one line (header
not found) or consumes at least the header line, so a budget equal to the
number of lines suffices (proved in pdOuter_fuel_sufficient). -/
def pdOuter (subcase : Int) : Nat → List Line → List DisplacementResult
  | 0, _ => []
  | _ + 1, [] => []
  | fuel + 1, l :: rest =>
      if containsSub dispHeader l then
        (if (pdRows ((dropUntilContains pointIdMark rest).tail)).1.isEmpty then []
         else [mkDispResult (pdRows ((dropUntilContains pointIdMark rest).tail)).1 subcase]) ++
          pdOuter subcase fuel (pdRows ((dropUntilContains pointIdMark rest).tail)).2
      else pdOuter subcase fuel rest

/-- parse_displacements embeds parser.parse_displacements on a document
already split into lines (the subcase argument defaults to 1 at every call
site in the source). -/
def parse_displacements (lines : List Line) (subcase : Int) : List DisplacementResult :=
  pdOuter subcase lines.length lines

/-- evHeader is the real-eigenvalue-table header phrase. -/
def evHeader : List Char := "R E A L   E I G E N V A L U E S".toList

/-- modeMark is the eigenvalue column-header marker. -/
def modeMark : List Char := "MODE".toList

/-- noMark is the eigenvalue sub-header marker. -/
def noMark : List Char := "NO.".toList

/-- msgMark is the embedded-message marker skipped inside eigenvalue
tables. -/
def msgMark : List Char := "MESSAGE".toList

/-- EigenvalueResult embeds models.EigenvalueResult, float columns kept as
raw tokens. -/
structure EigenvalueResult where
  mode_numbers : List Int
  eigenvalues : List Token
  frequencies : List Token
  generalized_mass : List Token
  generalized_stiffness : List Token
deriving DecidableEq

/-- EvRow is one successfully converted eigenvalue data row (parser.py lines
135-146). -/
structure EvRow where
  mode : Int
  ev : Token
  freq : Token
  gm : Token
  gs : Token
deriving DecidableEq

/-- evRowParse embeds the conversion block of an eigenvalue row: int on
fields 0 and 1 (extraction order discarded), float on fields 2, 4, 5, 6
(field 3, the radian frequency, is not converted). -/
def evRowParse (parts : List Token) : Option EvRow :=
  match parts[0]?, parts[1]?, parts[2]?, parts[4]?, parts[5]?, parts[6]? with
  | some p0, some p1, some p2, some p4, some p5, some p6 =>
      match pyInt? p0, pyInt? p1 with
      | some mode, some _ =>
          if isPyFloat p2 && isPyFloat p4 && isPyFloat p5 && isPyFloat p6 then
            some ⟨mode, p2, p4, p5, p6⟩
          else none
      | _, _ => none
  | _, _, _, _, _, _ => none

/-- evRows embeds the eigenvalue row-accumulation loop (parser.py lines
120-155): stop only at a page-break line; skip blank lines, message lines
(leading * or +, or containing MESSAGE), short rows (< 7 fields) and rows
that fail conversion — unlike the displacement loop, a failing row is
skipped, not a terminator. -/
def evRows : List Line → List EvRow
  | [] => []
  | l :: rest =>
      if is_page_break l then []
      else if (pyStrip l).isEmpty then evRows rest
      else if (pyStrip l).head? = some '*' || (pyStrip l).head? = some '+' ||
          containsSub msgMark (pyStrip l) then evRows rest
      else if (pySplit (pyStrip l)).length ≥ 7 then
        match evRowParse (pySplit (pyStrip l)) with
        | some row => row :: evRows rest
        | none => evRows rest
      else evRows rest

/-- evScan embeds the outer loop of parse_eigenvalues: find the first header
phrase, skip to the MODE column-header line (giving up at end of document),
skip it and an optional NO. sub-header line, then accumulate rows; the loop
breaks after the first table, so no further header is ever sought. -/
def evScan : List Line → List EvRow
  | [] => []
  | l :: rest =>
      if containsSub evHeader l then
        match dropUntilContains modeMark rest with
        | [] => []
        | _ :: after =>
            match after with
            | [] => evRows []
            | n :: ns => if containsSub noMark n then evRows ns else evRows (n :: ns)
      else evScan rest

/-- parse_eigenvalues embeds parser.parse_eigenvalues on a document already
split into lines; none embeds the Python None returned when no row was
accumulated. -/
def parse_eigenvalues (lines : List Line) : Option EigenvalueResult :=
  if (evScan lines).isEmpty then none
  else
    some
      { mode_numbers := (evScan lines).map (·.mode)
      , eigenvalues := (evScan lines).map (·.ev)
      , frequencies := (evScan lines).map (·.freq)
      , generalized_mass := (evScan lines).map (·.gm)
      , generalized_stiffness := (evScan lines).map (·.gs) }

/-- elementMark is the stress-table column-header marker. -/
def elementMark : List Char := "ELEMENT".toList

/-- idMark is the stress-table sub-header marker. -/
def idMark : List Char := "ID.".toList

/-- skipToTableBody embeds the shared header-skipping idiom of the three
stress parsers (parser.py lines 180-185, 240-245, 311-316): advance to the
line containing ELEMENT, skip it, then skip one further line when it
contains ID. -/
def skipToTableBody (rest : List Line) : List Line :=
  match dropUntilContains elementMark rest with
  | [] => []
  | _ :: after =>
      match after with
      | [] => []
      | n :: ns => if containsSub idMark n then ns else n :: ns

/-- StressResult embeds models.StressResult; the stresses dict is modelled
as an association list in the source's insertion order, float columns kept
as raw tokens. -/
structure StressResult where
  element_ids : List Int
  element_type : String
  stresses : List (String × List Token)
  subcase : Int
deriving DecidableEq

/-- rodHeader is the rod-stress-table header phrase. -/
def rodHeader : List Char := "S T R E S S E S   I N   R O D".toList

/-- RodRow is one successfully converted rod-stress data row (parser.py
lines 202-208). -/
structure RodRow where
  eid : Int
  axial : Token
  torsion : Token
deriving DecidableEq

/-- rodRowParse embeds the conversion block of a rod row: int on field 0,
float on fields 1 and 3 (field 2, possibly a safety margin, is not
converted); only reached under the at-least-4-fields guard, so the
torsion-defaults-to-0 branch of the source is never taken. -/
def rodRowParse (parts : List Token) : Option RodRow :=
  match parts[0]?, parts[1]?, parts[3]? with
  | some p0, some p1, some p3 =>
      match pyInt? p0 with
      | some eid => if isPyFloat p1 && isPyFloat p3 then some ⟨eid, p1, p3⟩ else none
      | none => none
  | _, _, _ => none

/-- rodRows embeds the rod row-accumulation loop (parser.py lines 191-213),
with the same stop/skip discipline as the displacement loop but a
4-field minimum. -/
def rodRows : List Line → List RodRow × List Line
  | [] => ([], [])
  | l :: rest =>
      if is_page_break l || is_double_space l then ([], l :: rest)
      else if (pyStrip l).isEmpty then rodRows rest
      else if (pySplit (pyStrip l)).length ≥ 4 then
        match rodRowParse (pySplit (pyStrip l)) with
        | some row => (row :: (rodRows rest).1, (rodRows rest).2)
        | none => ([], l :: rest)
      else ([], l :: rest)

/-- mkRodResult builds the CROD StressResult from accepted rows. -/
def mkRodResult (rows : List RodRow) (subcase : Int) : StressResult :=
  { element_ids := rows.map (·.eid)
  , element_type := "CROD"
  , stresses := [("axial", rows.map (·.axial)), ("torsion", rows.map (·.torsion))]
  , subcase := subcase }

/-- rodOuter embeds the outer scanning loop of parse_rod_stresses; unlike
the displacement loop, the line at which row accumulation stopped is skipped
by the unconditional index increment at the end of the outer loop (parser.py
line 227), hence the extra List.tail. -/
def rodOuter (subcase : Int) : Nat → List Line → List StressResult
  | 0, _ => []
  | _ + 1, [] => []
  | fuel + 1, l :: rest =>
      if containsSub rodHeader l then
        (if (rodRows (skipToTableBody rest)).1.isEmpty then []
         else [mkRodResult (rodRows (skipToTableBody rest)).1 subcase]) ++
          rodOuter subcase fuel (rodRows (skipToTableBody rest)).2.tail
      else rodOuter subcase fuel rest

/-- parse_rod_stresses embeds parser.parse_rod_stresses on a document
already split into lines. -/
def parse_rod_stresses (lines : List Line) (subcase : Int) : List StressResult :=
  rodOuter subcase lines.length lines

/-- shearHeader is the shear-panel-stress-table header phrase. -/
def shearHeader : List Char := "S T R E S S E S   I N   S H E A R   P A N E L S".toList

/-- ShearGroup is one successfully converted packed shear group: element id,
maximum shear, average shear (parser.py lines 266-271). -/
structure ShearGroup where
  eid : Int
  ms : Token
  avs : Token
deriving DecidableEq

/-- shearSkipMargin embeds the margin check after a parsed shear group
(parser.py lines 275-279): when the next token is not a valid integer it is
a safety margin and is skipped. -/
def shearSkipMargin : List Token → List Token
  | [] => []
  | m :: ms => if (pyInt? m).isSome then m :: ms else ms

/-- shearGroups embeds the within-line packed-group loop of
parse_shear_stresses (parser.py lines 262-282): greedily consume
(id, max-shear, avg-shear) triples, skipping one trailing non-integer
safety-margin token after each triple; the boolean is false when the loop
was ended by a conversion or index failure (the caught exception), in which
case the failing group is discarded but earlier groups of the line are kept.
The first argument is an iteration budget; each iteration consumes at least
three tokens, so a budget equal to the token count suffices. -/
def shearGroups : Nat → List Token → List ShearGroup × Bool
  | _, [] => ([], true)
  | 0, _ :: _ => ([], true)
  | fuel + 1, t0 :: rest =>
      match pyInt? t0 with
      | none => ([], false)
      | some eid =>
          match rest with
          | t1 :: t2 :: rest2 =>
              if isPyFloat t1 && isPyFloat t2 then
                (⟨eid, t1, t2⟩ :: (shearGroups fuel (shearSkipMargin rest2)).1,
                  (shearGroups fuel (shearSkipMargin rest2)).2)
              else ([], false)
          | _ => ([], false)

/-- shearRows embeds the shear line loop (parser.py lines 251-283): stop at
a page-break or double-space line, skip blank lines, and stop at a line
whose first group already fails; a line with at least one parsed group is
always consumed, keeping its parsed groups, even when a later group on it
failed. -/
def shearRows : List Line → List ShearGroup × List Line
  | [] => ([], [])
  | l :: rest =>
      if is_page_break l || is_double_space l then ([], l :: rest)
      else if (pyStrip l).isEmpty then shearRows rest
      else if (shearGroups (pySplit (pyStrip l)).length (pySplit (pyStrip l))).1.isEmpty &&
          !(shearGroups (pySplit (pyStrip l)).length (pySplit (pyStrip l))).2 then
        ([], l :: rest)
      else
        ((shearGroups (pySplit (pyStrip l)).length (pySplit (pyStrip l))).1 ++
          (shearRows rest).1, (shearRows rest).2)

/-- mkShearResult builds the CSHEAR StressResult from accepted groups. -/
def mkShearResult (rows : List ShearGroup) (subcase : Int) : StressResult :=
  { element_ids := rows.map (·.eid)
  , element_type := "CSHEAR"
  , stresses := [("max_shear", rows.map (·.ms)), ("avg_shear", rows.map (·.avs))]
  , subcase := subcase }

/-- shearOuter embeds the outer scanning loop of parse_shear_stresses, with
the same trailing index increment as the rod loop. -/
def shearOuter (subcase : Int) : Nat → List Line → List StressResult
  | 0, _ => []
  | _ + 1, [] => []
  | fuel + 1, l :: rest =>
      if containsSub shearHeader l then
        (if (shearRows (skipToTableBody rest)).1.isEmpty then []
         else [mkShearResult (shearRows (skipToTableBody rest)).1 subcase]) ++
          shearOuter subcase fuel (shearRows (skipToTableBody rest)).2.tail
      else shearOuter subcase fuel rest

/-- parse_shear_stresses embeds parser.parse_shear_stresses on a document
already split into lines. -/
def parse_shear_stresses (lines : List Line) (subcase : Int) : List StressResult :=
  shearOuter subcase lines.length lines

/-- quadHeader is the quadrilateral-membrane header phrase (first
alternative of the source regex). -/
def quadHeader : List Char := "S T R E S S E S   I N   Q U A D".toList

/-- triHeader is the triangular-membrane header phrase (second alternative
of the source regex). -/
def triHeader : List Char := "S T R E S S E S   I N   T R I A N G".toList

/-- quadMark is the substring used to choose the element-type tag. -/
def quadMark : List Char := "Q U A D".toList

/-- MemRow is one successfully converted membrane-stress data row
(parser.py lines 337-351). -/
structure MemRow where
  eid : Int
  nx : Token
  ny : Token
  sxy : Token
  maj : Token
  mnr : Token
  ms : Token
deriving DecidableEq

/-- memRowParse embeds the conversion block of a membrane row: int on field
0, float on fields 1, 2, 3, 5, 6, 7 (field 4, the angle, is not
converted). -/
def memRowParse (parts : List Token) : Option MemRow :=
  match parts[0]?, parts[1]?, parts[2]?, parts[3]?, parts[5]?, parts[6]?, parts[7]? with
  | some p0, some p1, some p2, some p3, some p5, some p6, some p7 =>
      match pyInt? p0 with
      | some eid =>
          if isPyFloat p1 && isPyFloat p2 && isPyFloat p3 && isPyFloat p5 &&
              isPyFloat p6 && isPyFloat p7 then
            some ⟨eid, p1, p2, p3, p5, p6, p7⟩
          else none
      | none => none
  | _, _, _, _, _, _, _ => none

/-- memRows embeds the membrane row-accumulation loop (parser.py lines
326-356), same discipline as the displacement loop with an 8-field
minimum. -/
def memRows : List Line → List MemRow × List Line
  | [] => ([], [])
  | l :: rest =>
      if is_page_break l || is_double_space l then ([], l :: rest)
      else if (pyStrip l).isEmpty then memRows rest
      else if (pySplit (pyStrip l)).length ≥ 8 then
        match memRowParse (pySplit (pyStrip l)) with
        | some row => (row :: (memRows rest).1, (memRows rest).2)
        | none => ([], l :: rest)
      else ([], l :: rest)

/-- mkMemResult builds the membrane StressResult from accepted rows. -/
def mkMemResult (rows : List MemRow) (etype : String) (subcase : Int) : StressResult :=
  { element_ids := rows.map (·.eid)
  , element_type := etype
  , stresses :=
      [ ("normal_x", rows.map (·.nx))
      , ("normal_y", rows.map (·.ny))
      , ("shear_xy", rows.map (·.sxy))
      , ("major", rows.map (·.maj))
      , ("minor", rows.map (·.mnr))
      , ("max_shear", rows.map (·.ms)) ]
  , subcase := subcase }

/-- memOuter embeds the outer scanning loop of parse_membrane_stresses: the
source regex search matches when the line contains either membrane header
phrase, and the element-type tag is CQDMEM exactly when the line contains
the substring Q U A D (parser.py lines 307-308). -/
def memOuter (subcase : Int) : Nat → List Line → List StressResult
  | 0, _ => []
  | _ + 1, [] => []
  | fuel + 1, l :: rest =>
      if containsSub quadHeader l || containsSub triHeader l then
        (if (memRows (skipToTableBody rest)).1.isEmpty then []
         else
           [mkMemResult (memRows (skipToTableBody rest)).1
              (if containsSub quadMark l then "CQDMEM" else "CTRMEM") subcase]) ++
          memOuter subcase fuel (memRows (skipToTableBody rest)).2.tail
      else memOuter subcase fuel rest

/-- parse_membrane_stresses embeds parser.parse_membrane_stresses on a
document already split into lines. -/
def parse_membrane_stresses (lines : List Line) (subcase : Int) : List StressResult :=
  memOuter subcase lines.length lines

/-- endOfJobMark is the first terminal sentinel phrase. -/
def endOfJobMark : List Char := "END OF JOB".toList

/-- jobTerminatedMark is the second terminal sentinel phrase. -/
def jobTerminatedMark : List Char := "JOB TERMINATED".toList

/-- is_completed embeds parser.is_completed: an exact substring test for the
two terminal sentinel phrases on the raw document. -/
def is_completed (output : List Char) : Bool :=
  containsSub endOfJobMark output || containsSub jobTerminatedMark output

/-- splitlinesGo scans the document, accumulating the current line in
reverse. -/
def splitlinesGo : List Char → List Char → List Line
  | [], acc => [acc.reverse]
  | '\n' :: [], acc => [acc.reverse]
  | '\n' :: c :: rest, acc => acc.reverse :: splitlinesGo (c :: rest) []
  | c :: rest, acc => splitlinesGo rest (c :: acc)

/-- splitlines models Python str.splitlines() restricted to the line-feed
separator (the source documents contain no other line boundaries); a
trailing line feed produces no trailing empty line and the empty document
has no lines. -/
def splitlines (s : List Char) : List Line :=
  if s.isEmpty then [] else splitlinesGo s []

/-- NastranResult embeds models.NastranResult; wall time is kept as an
abstract rational since no arithmetic on it is verified. -/
structure NastranResult where
  returncode : Int
  output : List Char
  log : List Char
  completed : Bool
  displacements : List DisplacementResult
  stresses : List StressResult
  eigenvalues : Option EigenvalueResult
  wall_time : ℚ
deriving DecidableEq

/-- parse_results embeds NastranRunner._parse_results: every parser is
invoked with its default subcase of 1, and the stresses are the
concatenation rod ++ shear ++ membrane; returncode 0, empty log and zero
wall time are the dataclass defaults, overwritten later by the caller. -/
def parse_results (output : List Char) : NastranResult :=
  let lines := splitlines output
  { returncode := 0
  , output := output
  , log := []
  , completed := is_completed output
  , displacements := parse_displacements lines 1
  , stresses :=
      parse_rod_stresses lines 1 ++ parse_shear_stresses lines 1 ++
        parse_membrane_stresses lines 1
  , eigenvalues := parse_eigenvalues lines
  , wall_time := 0 }

/-- SubprocessOutcome abstracts the behaviour of subprocess.run in
NastranRunner._execute_subprocess: either the TimeoutExpired exception, or a
finished child with its captured standard output and return code. -/
inductive SubprocessOutcome where
  | timeoutExpired
  | finished (stdout : List Char) (returncode : Int)
deriving DecidableEq

/-- execute_subprocess embeds NastranRunner._execute_subprocess as a
function of the abstract subprocess outcome, the optional content of the
run.log file, and the measured wall time (process launching and clocks are
outside the embedding).  On TimeoutExpired the source returns the sentinel
NastranResult directly, before the log file is read or any parsing
happens. -/
def execute_subprocess (proc : SubprocessOutcome) (logFile : Option (List Char))
    (wallTime : ℚ) : NastranResult :=
  match proc with
  | .timeoutExpired =>
      { returncode := -1
      , output := []
      , log := []
      , completed := false
      , displacements := []
      , stresses := []
      , eigenvalues := none
      , wall_time := wallTime }
  | .finished stdout rc =>
      let log := logFile.getD []
      let r := parse_results stdout
      { r with returncode := rc, log := log, wall_time := wallTime }

/-- InputData is the input_data argument of NastranRunner.run: either a
pathlib.Path or a str. -/
inductive InputData where
  | path (p : List Char)
  | str (s : List Char)
deriving DecidableEq

/-- resolveInput embeds the input-handling block of NastranRunner.run
(runner.py lines 100-107).  The filesystem is abstracted as fileText, which
yields the content of a readable regular file and none otherwise (so
os.path.isfile is (fileText s).isSome).  A Path argument is always read —
none models the uncaught read failure on a missing file; a str argument is
read as a file exactly when a file of that name exists, and only otherwise
used verbatim as deck text. -/
def resolveInput (fileText : List Char → Option (List Char)) :
    InputData → Option (List Char)
  | .path p => fileText p
  | .str s =>
      match fileText s with
      | some contents => some contents
      | none => some s

/-! Helper lemmas shared by the claim theorems. -/

/-- containsSub decides the mathematical substring relation. -/
theorem containsSub_iff_infix (pat l : List Char) :
    containsSub pat l = true ↔ pat <:+: l := by
  induction l with
  | nil => simp [containsSub, List.isPrefixOf_iff_prefix]
  | cons c rest ih =>
      rw [containsSub, Bool.or_eq_true, List.isPrefixOf_iff_prefix, ih,
        List.infix_cons_iff]

/-- dropUntilContains returns a suffix no longer than its input. -/
theorem dropUntilContains_length_le (pat : List Char) (ls : List Line) :
    (dropUntilContains pat ls).length ≤ ls.length := by
  induction ls with
  | nil => simp [dropUntilContains]
  | cons l rest ih =>
      rw [dropUntilContains]
      split
      · exact Nat.le_refl _
      · exact Nat.le_trans ih (Nat.le_succ _)

/-- skipToTableBody returns a suffix no longer than its input. -/
theorem skipToTableBody_length_le (ls : List Line) :
    (skipToTableBody ls).length ≤ ls.length := by
  rw [skipToTableBody]
  have h := dropUntilContains_length_le elementMark ls
  rcases hdu : dropUntilContains elementMark ls with _ | ⟨e, after⟩
  · simp
  · rw [hdu] at h
    rcases after with _ | ⟨n, ns⟩
    · simp
    · simp only []
      split
      · calc ns.length ≤ (e :: n :: ns).length := by simp; omega
          _ ≤ ls.length := h
      · calc (n :: ns).length ≤ (e :: n :: ns).length := by simp
          _ ≤ ls.length := h

/-- pdRows returns an unconsumed suffix no longer than its input. -/
theorem pdRows_snd_length_le (ls : List Line) :
    (pdRows ls).2.length ≤ ls.length := by
  induction ls with
  | nil => simp [pdRows]
  | cons l rest ih =>
      rw [pdRows]
      split
      · exact Nat.le_refl _
      · split
        · exact Nat.le_trans ih (Nat.le_succ _)
        · split
          · split
            · simpa using Nat.le_trans ih (Nat.le_succ _)
            · exact Nat.le_refl _
          · exact Nat.le_refl _

/-- rodRows returns an unconsumed suffix no longer than its input. -/
theorem rodRows_snd_length_le (ls : List Line) :
    (rodRows ls).2.length ≤ ls.length := by
  induction ls with
  | nil => simp [rodRows]
  | cons l rest ih =>
      rw [rodRows]
      split
      · exact Nat.le_refl _
      · split
        · exact Nat.le_trans ih (Nat.le_succ _)
        · split
          · split
            · simpa using Nat.le_trans ih (Nat.le_succ _)
            · exact Nat.le_refl _
          · exact Nat.le_refl _

/-- memRows returns an unconsumed suffix no longer than its input. -/
theorem memRows_snd_length_le (ls : List Line) :
    (memRows ls).2.length ≤ ls.length := by
  induction ls with
  | nil => simp [memRows]
  | cons l rest ih =>
      rw [memRows]
      split
      · exact Nat.le_refl _
      · split
        · exact Nat.le_trans ih (Nat.le_succ _)
        · split
          · split
            · simpa using Nat.le_trans ih (Nat.le_succ _)
            · exact Nat.le_refl _
          · exact Nat.le_refl _

/-- shearRows returns an unconsumed suffix no longer than its input. -/
theorem shearRows_snd_length_le (ls : List Line) :
    (shearRows ls).2.length ≤ ls.length := by
  induction ls with
  | nil => simp [shearRows]
  | cons l rest ih =>
      rw [shearRows]
      split
      · exact Nat.le_refl _
      · split
        · exact Nat.le_trans ih (Nat.le_succ _)
        · split
          · exact Nat.le_refl _
          · simpa using Nat.le_trans ih (Nat.le_succ _)

/-- One displacement outer iteration consumes at least the header line. -/
theorem pdRem_length_le (rest : List Line) :
    (pdRows ((dropUntilContains pointIdMark rest).tail)).2.length ≤ rest.length := by
  calc (pdRows ((dropUntilContains pointIdMark rest).tail)).2.length
      ≤ (dropUntilContains pointIdMark rest).tail.length :=
        pdRows_snd_length_le _
    _ ≤ (dropUntilContains pointIdMark rest).length := by
        rw [List.length_tail]; omega
    _ ≤ rest.length := dropUntilContains_length_le _ _

/-- One rod outer iteration consumes at least the header line. -/
theorem rodRem_length_le (rest : List Line) :
    (rodRows (skipToTableBody rest)).2.tail.length ≤ rest.length := by
  calc (rodRows (skipToTableBody rest)).2.tail.length
      ≤ (rodRows (skipToTableBody rest)).2.length := by
        rw [List.length_tail]; omega
    _ ≤ (skipToTableBody rest).length := rodRows_snd_length_le _
    _ ≤ rest.length := skipToTableBody_length_le _

/-- One shear outer iteration consumes at least the header line. -/
theorem shearRem_length_le (rest : List Line) :
    (shearRows (skipToTableBody rest)).2.tail.length ≤ rest.length := by
  calc (shearRows (skipToTableBody rest)).2.tail.length
      ≤ (shearRows (skipToTableBody rest)).2.length := by
        rw [List.length_tail]; omega
    _ ≤ (skipToTableBody rest).length := shearRows_snd_length_le _
    _ ≤ rest.length := skipToTableBody_length_le _

/-- One membrane outer iteration consumes at least the header line. -/
theorem memRem_length_le (rest : List Line) :
    (memRows (skipToTableBody rest)).2.tail.length ≤ rest.length := by
  calc (memRows (skipToTableBody rest)).2.tail.length
      ≤ (memRows (skipToTableBody rest)).2.length := by
        rw [List.length_tail]; omega
    _ ≤ (skipToTableBody rest).length := memRows_snd_length_le _
    _ ≤ rest.length := skipToTableBody_length_le _

/-- pdOuter is insensitive to the iteration budget once it covers the line
count: the outer loop of parse_displacements always finishes within that
many iterations. -/
theorem pdOuter_fuel_congr (sc : Int) :
    ∀ f g ls, ls.length ≤ f → ls.length ≤ g → pdOuter sc f ls = pdOuter sc g ls := by
  intro f
  induction f with
  | zero =>
      intro g ls hf _
      have : ls = [] := List.eq_nil_of_length_eq_zero (Nat.le_zero.mp hf)
      subst this
      cases g <;> rfl
  | succ f ih =>
      intro g ls hf hg
      cases ls with
      | nil => cases g <;> rfl
      | cons l rest =>
          cases g with
          | zero => simp at hg
          | succ g =>
              simp only [List.length_cons, Nat.succ_le_succ_iff] at hf hg
              rw [pdOuter, pdOuter]
              split
              · rw [ih g _ (Nat.le_trans (pdRem_length_le rest) hf)
                  (Nat.le_trans (pdRem_length_le rest) hg)]
              · exact ih g rest hf hg

/-- rodOuter is insensitive to the iteration budget once it covers the line
count. -/
theorem rodOuter_fuel_congr (sc : Int) :
    ∀ f g ls, ls.length ≤ f → ls.length ≤ g → rodOuter sc f ls = rodOuter sc g ls := by
  intro f
  induction f with
  | zero =>
      intro g ls hf _
      have : ls = [] := List.eq_nil_of_length_eq_zero (Nat.le_zero.mp hf)
      subst this
      cases g <;> rfl
  | succ f ih =>
      intro g ls hf hg
      cases ls with
      | nil => cases g <;> rfl
      | cons l rest =>
          cases g with
          | zero => simp at hg
          | succ g =>
              simp only [List.length_cons, Nat.succ_le_succ_iff] at hf hg
              rw [rodOuter, rodOuter]
              split
              · rw [ih g _ (Nat.le_trans (rodRem_length_le rest) hf)
                  (Nat.le_trans (rodRem_length_le rest) hg)]
              · exact ih g rest hf hg

/-- shearOuter is insensitive to the iteration budget once it covers the
line count. -/
theorem shearOuter_fuel_congr (sc : Int) :
    ∀ f g ls, ls.length ≤ f → ls.length ≤ g → shearOuter sc f ls = shearOuter sc g ls := by
  intro f
  induction f with
  | zero =>
      intro g ls hf _
      have : ls = [] := List.eq_nil_of_length_eq_zero (Nat.le_zero.mp hf)
      subst this
      cases g <;> rfl
  | succ f ih =>
      intro g ls hf hg
      cases ls with
      | nil => cases g <;> rfl
      | cons l rest =>
          cases g with
          | zero => simp at hg
          | succ g =>
              simp only [List.length_cons, Nat.succ_le_succ_iff] at hf hg
              rw [shearOuter, shearOuter]
              split
              · rw [ih g _ (Nat.le_trans (shearRem_length_le rest) hf)
                  (Nat.le_trans (shearRem_length_le rest) hg)]
              · exact ih g rest hf hg

/-- memOuter is insensitive to the iteration budget once it covers the line
count. -/
theorem memOuter_fuel_congr (sc : Int) :
    ∀ f g ls, ls.length ≤ f → ls.length ≤ g → memOuter sc f ls = memOuter sc g ls := by
  intro f
  induction f with
  | zero =>
      intro g ls hf _
      have : ls = [] := List.eq_nil_of_length_eq_zero (Nat.le_zero.mp hf)
      subst this
      cases g <;> rfl
  | succ f ih =>
      intro g ls hf hg
      cases ls with
      | nil => cases g <;> rfl
      | cons l rest =>
          cases g with
          | zero => simp at hg
          | succ g =>
              simp only [List.length_cons, Nat.succ_le_succ_iff] at hf hg
              rw [memOuter, memOuter]
              split
              · rw [ih g _ (Nat.le_trans (memRem_length_le rest) hf)
                  (Nat.le_trans (memRem_length_le rest) hg)]
              · exact ih g rest hf hg

/-- shearGroups is insensitive to the iteration budget once it covers the
token count: every iteration of the packed-group loop consumes at least
three tokens. -/
theorem shearGroups_fuel_congr :
    ∀ f g ts, ts.length ≤ f → ts.length ≤ g → shearGroups f ts = shearGroups g ts := by
  intro f
  induction f with
  | zero =>
      intro g ts hf _
      have : ts = [] := List.eq_nil_of_length_eq_zero (Nat.le_zero.mp hf)
      subst this
      cases g <;> rfl
  | succ f ih =>
      intro g ts hf hg
      cases ts with
      | nil => cases g <;> rfl
      | cons t0 rest =>
          cases g with
          | zero => simp at hg
          | succ g =>
              simp only [List.length_cons, Nat.succ_le_succ_iff] at hf hg
              rw [shearGroups, shearGroups]
              cases pyInt? t0 with
              | none => rfl
              | some eid =>
                  cases rest with
                  | nil => rfl
                  | cons t1 rest1 =>
                      cases rest1 with
                      | nil => rfl
                      | cons t2 rest2 =>
                          simp only []
                          split
                          · have hlen : (shearSkipMargin rest2).length ≤ rest2.length := by
                              cases rest2 with
                              | nil => simp [shearSkipMargin]
                              | cons m ms =>
                                  rw [shearSkipMargin]
                                  split <;> simp
                            have hf2 : (shearSkipMargin rest2).length ≤ f := by
                              simp only [List.length_cons] at hf; omega
                            have hg2 : (shearSkipMargin rest2).length ≤ g := by
                              simp only [List.length_cons] at hg; omega
                            rw [ih g _ hf2 hg2]
                          · rfl

/-- Every record emitted by the displacement outer loop comes from a
nonempty row list via mkDispResult. -/
theorem pdOuter_mem (sc : Int) :
    ∀ f ls r, r ∈ pdOuter sc f ls → ∃ rows, rows ≠ [] ∧ r = mkDispResult rows sc := by
  intro f
  induction f with
  | zero => intro ls r h; cases ls <;> simp [pdOuter] at h
  | succ f ih =>
      intro ls r h
      cases ls with
      | nil => simp [pdOuter] at h
      | cons l rest =>
          rw [pdOuter] at h
          split at h
          · rw [List.mem_append] at h
            rcases h with h | h
            · split at h
              · simp at h
              · rename_i hrows
                simp only [List.mem_singleton] at h
                refine ⟨_, ?_, h⟩
                simpa [List.isEmpty_iff] using hrows
            · exact ih _ r h
          · exact ih _ r h

/-- Every record emitted by the rod outer loop comes from a nonempty row
list via mkRodResult. -/
theorem rodOuter_mem (sc : Int) :
    ∀ f ls r, r ∈ rodOuter sc f ls → ∃ rows, rows ≠ [] ∧ r = mkRodResult rows sc := by
  intro f
  induction f with
  | zero => intro ls r h; cases ls <;> simp [rodOuter] at h
  | succ f ih =>
      intro ls r h
      cases ls with
      | nil => simp [rodOuter] at h
      | cons l rest =>
          rw [rodOuter] at h
          split at h
          · rw [List.mem_append] at h
            rcases h with h | h
            · split at h
              · simp at h
              · rename_i hrows
                simp only [List.mem_singleton] at h
                refine ⟨_, ?_, h⟩
                simpa [List.isEmpty_iff] using hrows
            · exact ih _ r h
          · exact ih _ r h

/-- Every record emitted by the shear outer loop comes from a nonempty
group list via mkShearResult. -/
theorem shearOuter_mem (sc : Int) :
    ∀ f ls r, r ∈ shearOuter sc f ls → ∃ rows, rows ≠ [] ∧ r = mkShearResult rows sc := by
  intro f
  induction f with
  | zero => intro ls r h; cases ls <;> simp [shearOuter] at h
  | succ f ih =>
      intro ls r h
      cases ls with
      | nil => simp [shearOuter] at h
      | cons l rest =>
          rw [shearOuter] at h
          split at h
          · rw [List.mem_append] at h
            rcases h with h | h
            · split at h
              · simp at h
              · rename_i hrows
                simp only [List.mem_singleton] at h
                refine ⟨_, ?_, h⟩
                simpa [List.isEmpty_iff] using hrows
            · exact ih _ r h
          · exact ih _ r h

/-- Every record emitted by the membrane outer loop comes from a nonempty
row list via mkMemResult, with one of the two membrane element types. -/
theorem memOuter_mem (sc : Int) :
    ∀ f ls r, r ∈ memOuter sc f ls →
      ∃ rows et, rows ≠ [] ∧ (et = "CQDMEM" ∨ et = "CTRMEM") ∧
        r = mkMemResult rows et sc := by
  intro f
  induction f with
  | zero => intro ls r h; cases ls <;> simp [memOuter] at h
  | succ f ih =>
      intro ls r h
      cases ls with
      | nil => simp [memOuter] at h
      | cons l rest =>
          rw [memOuter] at h
          split at h
          · rw [List.mem_append] at h
            rcases h with h | h
            · split at h
              · simp at h
              · rename_i hrows
                simp only [List.mem_singleton] at h
                refine ⟨_, _, ?_, ?_, h⟩
                · simpa [List.isEmpty_iff] using hrows
                · split <;> simp
            · exact ih _ r h
          · exact ih _ r h

/-- A document none of whose lines contains the displacement header phrase
yields no displacement record. -/
theorem pdOuter_no_header (sc : Int) :
    ∀ f ls, (∀ l ∈ ls, containsSub dispHeader l = false) → pdOuter sc f ls = [] := by
  intro f
  induction f with
  | zero => intro ls _; cases ls <;> rfl
  | succ f ih =>
      intro ls h
      cases ls with
      | nil => rfl
      | cons l rest =>
          rw [pdOuter]
          rw [if_neg (by simp [h l (List.mem_cons_self l rest)])]
          exact ih rest (fun x hx => h x (List.mem_cons_of_mem l hx))

/-- A document none of whose lines contains the rod header phrase yields no
rod record. -/
theorem rodOuter_no_header (sc : Int) :
    ∀ f ls, (∀ l ∈ ls, containsSub rodHeader l = false) → rodOuter sc f ls = [] := by
  intro f
  induction f with
  | zero => intro ls _; cases ls <;> rfl
  | succ f ih =>
      intro ls h
      cases ls with
      | nil => rfl
      | cons l rest =>
          rw [rodOuter]
          rw [if_neg (by simp [h l (List.mem_cons_self l rest)])]
          exact ih rest (fun x hx => h x (List.mem_cons_of_mem l hx))

/-- A document none of whose lines contains the shear header phrase yields
no shear record. -/
theorem shearOuter_no_header (sc : Int) :
    ∀ f ls, (∀ l ∈ ls, containsSub shearHeader l = false) → shearOuter sc f ls = [] := by
  intro f
  induction f with
  | zero => intro ls _; cases ls <;> rfl
  | succ f ih =>
      intro ls h
      cases ls with
      | nil => rfl
      | cons l rest =>
          rw [shearOuter]
          rw [if_neg (by simp [h l (List.mem_cons_self l rest)])]
          exact ih rest (fun x hx => h x (List.mem_cons_of_mem l hx))

/-- A document none of whose lines contains either membrane header phrase
yields no membrane record. -/
theorem memOuter_no_header (sc : Int) :
    ∀ f ls,
      (∀ l ∈ ls, containsSub quadHeader l = false ∧ containsSub triHeader l = false) →
      memOuter sc f ls = [] := by
  intro f
  induction f with
  | zero => intro ls _; cases ls <;> rfl
  | succ f ih =>
      intro ls h
      cases ls with
      | nil => rfl
      | cons l rest =>
          rw [memOuter]
          rw [if_neg (by simp [(h l (List.mem_cons_self l rest)).1,
            (h l (List.mem_cons_self l rest)).2])]
          exact ih rest (fun x hx => h x (List.mem_cons_of_mem l hx))

/-- A document none of whose lines contains the eigenvalue header phrase
yields no eigenvalue rows. -/
theorem evScan_no_header :
    ∀ ls, (∀ l ∈ ls, containsSub evHeader l = false) → evScan ls = [] := by
  intro ls
  induction ls with
  | nil => intro _; rfl
  | cons l rest ih =>
      intro h
      rw [evScan]
      rw [if_neg (by simp [h l (List.mem_cons_self l rest)])]
      exact ih (fun x hx => h x (List.mem_cons_of_mem l hx))

/-- Scanning step of parse_displacements on a non-header line. -/
theorem parse_displacements_cons_not_found (l : Line) (rest : List Line) (sc : Int)
    (h : containsSub dispHeader l = false) :
    parse_displacements (l :: rest) sc = parse_displacements rest sc := by
  rw [parse_displacements, parse_displacements, List.length_cons, pdOuter,
    if_neg (by simp [h])]

/-- Scanning step of parse_displacements on a header line: emit the table
found there (when it has rows) and continue from the line at which row
accumulation stopped. -/
theorem parse_displacements_cons_found (l : Line) (rest : List Line) (sc : Int)
    (h : containsSub dispHeader l = true) :
    parse_displacements (l :: rest) sc =
      (if (pdRows ((dropUntilContains pointIdMark rest).tail)).1.isEmpty then []
        else [mkDispResult (pdRows ((dropUntilContains pointIdMark rest).tail)).1 sc]) ++
        parse_displacements (pdRows ((dropUntilContains pointIdMark rest).tail)).2 sc := by
  rw [parse_displacements, parse_displacements, List.length_cons, pdOuter, if_pos (by simp [h])]
  rw [pdOuter_fuel_congr sc rest.length
    (pdRows ((dropUntilContains pointIdMark rest).tail)).2.length _
    (pdRem_length_le rest) (Nat.le_refl _)]

/-- Scanning step of parse_rod_stresses on a non-header line. -/
theorem parse_rod_stresses_cons_not_found (l : Line) (rest : List Line) (sc : Int)
    (h : containsSub rodHeader l = false) :
    parse_rod_stresses (l :: rest) sc = parse_rod_stresses rest sc := by
  rw [parse_rod_stresses, parse_rod_stresses, List.length_cons, rodOuter,
    if_neg (by simp [h])]

/-- Scanning step of parse_rod_stresses on a header line; the line at which
row accumulation stopped is skipped before scanning resumes. -/
theorem parse_rod_stresses_cons_found (l : Line) (rest : List Line) (sc : Int)
    (h : containsSub rodHeader l = true) :
    parse_rod_stresses (l :: rest) sc =
      (if (rodRows (skipToTableBody rest)).1.isEmpty then []
        else [mkRodResult (rodRows (skipToTableBody rest)).1 sc]) ++
        parse_rod_stresses (rodRows (skipToTableBody rest)).2.tail sc := by
  rw [parse_rod_stresses, parse_rod_stresses, List.length_cons, rodOuter, if_pos (by simp [h])]
  rw [rodOuter_fuel_congr sc rest.length
    (rodRows (skipToTableBody rest)).2.tail.length _
    (rodRem_length_le rest) (Nat.le_refl _)]

/-- Scanning step of parse_shear_stresses on a non-header line. -/
theorem parse_shear_stresses_cons_not_found (l : Line) (rest : List Line) (sc : Int)
    (h : containsSub shearHeader l = false) :
    parse_shear_stresses (l :: rest) sc = parse_shear_stresses rest sc := by
  rw [parse_shear_stresses, parse_shear_stresses, List.length_cons, shearOuter,
    if_neg (by simp [h])]

/-- Scanning step of parse_shear_stresses on a header line. -/
theorem parse_shear_stresses_cons_found (l : Line) (rest : List Line) (sc : Int)
    (h : containsSub shearHeader l = true) :
    parse_shear_stresses (l :: rest) sc =
      (if (shearRows (skipToTableBody rest)).1.isEmpty then []
        else [mkShearResult (shearRows (skipToTableBody rest)).1 sc]) ++
        parse_shear_stresses (shearRows (skipToTableBody rest)).2.tail sc := by
  rw [parse_shear_stresses, parse_shear_stresses, List.length_cons, shearOuter,
    if_pos (by simp [h])]
  rw [shearOuter_fuel_congr sc rest.length
    (shearRows (skipToTableBody rest)).2.tail.length _
    (shearRem_length_le rest) (Nat.le_refl _)]

/-- Scanning step of parse_membrane_stresses on a line matching neither
membrane header phrase. -/
theorem parse_membrane_stresses_cons_not_found (l : Line) (rest : List Line) (sc : Int)
    (h1 : containsSub quadHeader l = false) (h2 : containsSub triHeader l = false) :
    parse_membrane_stresses (l :: rest) sc = parse_membrane_stresses rest sc := by
  rw [parse_membrane_stresses, parse_membrane_stresses, List.length_cons, memOuter,
    if_neg (by simp [h1, h2])]

/-- Scanning step of parse_membrane_stresses on a header line. -/
theorem parse_membrane_stresses_cons_found (l : Line) (rest : List Line) (sc : Int)
    (h : containsSub quadHeader l = true ∨ containsSub triHeader l = true) :
    parse_membrane_stresses (l :: rest) sc =
      (if (memRows (skipToTableBody rest)).1.isEmpty then []
        else
          [mkMemResult (memRows (skipToTableBody rest)).1
            (if containsSub quadMark l then "CQDMEM" else "CTRMEM") sc]) ++
        parse_membrane_stresses (memRows (skipToTableBody rest)).2.tail sc := by
  rw [parse_membrane_stresses, parse_membrane_stresses, List.length_cons, memOuter,
    if_pos (by rcases h with h | h <;> simp [h])]
  rw [memOuter_fuel_congr sc rest.length
    (memRows (skipToTableBody rest)).2.tail.length _
    (memRem_length_le rest) (Nat.le_refl _)]

/-- The eigenvalue row loop stops at the first page-break line: rows
collected from a page-break-free region followed by a page break are
independent of everything after that page break. -/
theorem evRows_append_page_break (pb : Line) (post : List Line) :
    ∀ ls, (∀ l ∈ ls, is_page_break l = false) → is_page_break pb = true →
      evRows (ls ++ pb :: post) = evRows ls := by
  intro ls
  induction ls with
  | nil =>
      intro _ hpb
      rw [List.nil_append]
      conv_lhs => rw [evRows]
      rw [if_pos hpb]
      rfl
  | cons l ls ih =>
      intro h hpb
      have hl : is_page_break l = false := h l (List.mem_cons_self l ls)
      have hl' : ¬(is_page_break l = true) := by simp [hl]
      have ih' := ih (fun x hx => h x (List.mem_cons_of_mem l hx)) hpb
      rw [List.cons_append]
      conv_lhs => rw [evRows]
      conv_rhs => rw [evRows]
      rw [if_neg hl', if_neg hl']
      by_cases hblank : (pyStrip l).isEmpty = true
      · rw [if_pos hblank, if_pos hblank]
        exact ih'
      · rw [if_neg hblank, if_neg hblank]
        by_cases hmsg : ((pyStrip l).head? = some '*' || (pyStrip l).head? = some '+' ||
            containsSub msgMark (pyStrip l)) = true
        · rw [if_pos hmsg, if_pos hmsg]
          exact ih'
        · rw [if_neg hmsg, if_neg hmsg]
          by_cases hlen : (pySplit (pyStrip l)).length ≥ 7
          · rw [if_pos hlen, if_pos hlen]
            rcases evRowParse (pySplit (pyStrip l)) with _ | row
            · exact ih'
            · exact congrArg (List.cons row) ih'
          · rw [if_neg hlen, if_neg hlen]
            exact ih'

/-- The eigenvalue outer scan passes over a prefix with no header line
without emitting anything, reaching the first header. -/
theorem evScan_append_no_header (rest : List Line) :
    ∀ pre, (∀ l ∈ pre, containsSub evHeader l = false) →
      evScan (pre ++ rest) = evScan rest := by
  intro pre
  induction pre with
  | nil => intro _; rw [List.nil_append]
  | cons p pre ih =>
      intro h
      rw [List.cons_append, evScan, if_neg (by simp [h p (List.mem_cons_self p pre)])]
      exact ih (fun x hx => h x (List.mem_cons_of_mem p hx))

/-- dropUntilContains passes over a prefix with no matching line. -/
theorem dropUntilContains_append (pat : List Char) (b : List Line) :
    ∀ a, (∀ l ∈ a, containsSub pat l = false) →
      dropUntilContains pat (a ++ b) = dropUntilContains pat b := by
  intro a
  induction a with
  | nil => intro _; rw [List.nil_append]
  | cons x a ih =>
      intro h
      rw [List.cons_append, dropUntilContains,
        if_neg (by simp [h x (List.mem_cons_self x a)])]
      exact ih (fun y hy => h y (List.mem_cons_of_mem x hy))

/-! Claim theorems. -/

/-- C3, counterexample: is_completed is case-sensitive.  The document
consisting of the lower-case phrase end of job contains a terminal sentinel
phrase up to letter case (upper-casing the document makes the exact phrase
appear), yet is_completed is false on it, refuting the claimed
case-independence. -/
theorem C3_counterexample :
    is_completed (lineOf "end of job") = false ∧
      containsSub endOfJobMark ((lineOf "end of job").map Char.toUpper) = true := by
  constructor
  · decide
  · decide

/-- C3, amended: is_completed is true iff one of the two terminal sentinel
phrases END OF JOB or JOB TERMINATED occurs as an exact (case-sensitive)
substring of the document, independent of position. -/
theorem C3_is_completed_iff (output : List Char) :
    is_completed output = true ↔
      endOfJobMark <:+: output ∨ jobTerminatedMark <:+: output := by
  rw [is_completed, Bool.or_eq_true, containsSub_iff_infix, containsSub_iff_infix]

/-- C3, witness: the sentinel detected in a concrete completed document via
the amended theorem. -/
theorem C3_witness : is_completed (lineOf "* * * END OF JOB * * *") = true :=
  (C3_is_completed_iff (lineOf "* * * END OF JOB * * *")).mpr
    (Or.inl ⟨"* * * ".toList, " * * *".toList, by decide⟩)

/-- C7: when the subprocess raises TimeoutExpired, _execute_subprocess
returns (rather than raises) the sentinel failure outcome: return code -1 (a
distinguished negative value), empty raw output and log, completion flag
false, and no parsed records; the log file on disk is never consulted, so
the outcome does not depend on it. -/
theorem C7_timeout_sentinel (logFile : Option (List Char)) (wallTime : ℚ) :
    execute_subprocess .timeoutExpired logFile wallTime =
        { returncode := -1, output := [], log := [], completed := false,
          displacements := [], stresses := [], eigenvalues := none,
          wall_time := wallTime } ∧
      (execute_subprocess .timeoutExpired logFile wallTime).returncode < 0 ∧
      execute_subprocess .timeoutExpired logFile wallTime =
        execute_subprocess .timeoutExpired none wallTime := by
  refine ⟨rfl, ?_, rfl⟩
  show (-1 : Int) < 0
  decide

/-- C10: NastranRunner.run reads a Path argument as a file unconditionally;
a str argument is read as a file whenever a file with that exact name
exists, and used verbatim as deck text only otherwise — so deck text that
collides with the name of an existing file whose content differs is never
used verbatim. -/
theorem C10_resolve_input (fileText : List Char → Option (List Char))
    (p s c : List Char) :
    resolveInput fileText (.path p) = fileText p ∧
      (fileText s = some c → resolveInput fileText (.str s) = some c) ∧
      (fileText s = none → resolveInput fileText (.str s) = some s) ∧
      (fileText s = some c → c ≠ s → resolveInput fileText (.str s) ≠ some s) := by
  refine ⟨rfl, ?_, ?_, ?_⟩
  · intro h
    simp [resolveInput, h]
  · intro h
    simp [resolveInput, h]
  · intro h hne
    simp [resolveInput, h]
    exact fun hc => hne hc

/-- C10, witness: with a filesystem holding one file deck.dat, the string
deck.dat is read as that file while a non-filename string passes through
verbatim. -/
theorem C10_witness :
    resolveInput
        (fun n => if n = lineOf "deck.dat" then some (lineOf "CEND") else none)
        (.str (lineOf "deck.dat")) = some (lineOf "CEND") ∧
      resolveInput
        (fun n => if n = lineOf "deck.dat" then some (lineOf "CEND") else none)
        (.str (lineOf "SOL 1")) = some (lineOf "SOL 1") :=
  ⟨(C10_resolve_input (fun n => if n = lineOf "deck.dat" then some (lineOf "CEND") else none)
      [] (lineOf "deck.dat") (lineOf "CEND")).2.1 (by decide),
    (C10_resolve_input (fun n => if n = lineOf "deck.dat" then some (lineOf "CEND") else none)
      [] (lineOf "SOL 1") (lineOf "CEND")).2.2.1 (by decide)⟩

/-- C6: every parse function is total by construction in this embedding (no
exception escapes the source loops), every record it emits contains at
least one successfully parsed row, and a document with no recognized header
phrase for a kind yields the empty collection for that kind (None for the
eigenvalue kind). -/
theorem C6_total_and_nonempty (sc : Int) (lines : List Line) :
    ((∀ l ∈ lines, containsSub dispHeader l = false) → parse_displacements lines sc = []) ∧
    (∀ r ∈ parse_displacements lines sc, r.node_ids ≠ []) ∧
    ((∀ l ∈ lines, containsSub rodHeader l = false) → parse_rod_stresses lines sc = []) ∧
    (∀ r ∈ parse_rod_stresses lines sc, r.element_ids ≠ []) ∧
    ((∀ l ∈ lines, containsSub shearHeader l = false) → parse_shear_stresses lines sc = []) ∧
    (∀ r ∈ parse_shear_stresses lines sc, r.element_ids ≠ []) ∧
    ((∀ l ∈ lines, containsSub quadHeader l = false ∧ containsSub triHeader l = false) →
        parse_membrane_stresses lines sc = []) ∧
    (∀ r ∈ parse_membrane_stresses lines sc, r.element_ids ≠ []) ∧
    ((∀ l ∈ lines, containsSub evHeader l = false) → parse_eigenvalues lines = none) ∧
    (∀ r, parse_eigenvalues lines = some r → r.mode_numbers ≠ []) := by
  refine ⟨?_, ?_, ?_, ?_, ?_, ?_, ?_, ?_, ?_, ?_⟩
  · intro h
    exact pdOuter_no_header sc lines.length lines h
  · intro r hr
    obtain ⟨rows, hne, rfl⟩ := pdOuter_mem sc lines.length lines r hr
    simp [mkDispResult, hne]
  · intro h
    exact rodOuter_no_header sc lines.length lines h
  · intro r hr
    obtain ⟨rows, hne, rfl⟩ := rodOuter_mem sc lines.length lines r hr
    simp [mkRodResult, hne]
  · intro h
    exact shearOuter_no_header sc lines.length lines h
  · intro r hr
    obtain ⟨rows, hne, rfl⟩ := shearOuter_mem sc lines.length lines r hr
    simp [mkShearResult, hne]
  · intro h
    exact memOuter_no_header sc lines.length lines h
  · intro r hr
    obtain ⟨rows, et, hne, _, rfl⟩ := memOuter_mem sc lines.length lines r hr
    simp [mkMemResult, hne]
  · intro h
    rw [parse_eigenvalues]
    simp [evScan_no_header lines h]
  · intro r hr
    rw [parse_eigenvalues] at hr
    split at hr
    · exact absurd hr (by simp)
    · rename_i hne
      obtain rfl : _ = r := Option.some_injective _ hr
      simpa [List.isEmpty_iff] using hne

/-- C6, witness: a one-line document with no header phrase yields the empty
collection for the displacement kind and None for the eigenvalue kind. -/
theorem C6_witness :
    parse_displacements [lineOf "no tables here"] 1 = [] ∧
      parse_eigenvalues [lineOf "no tables here"] = none :=
  ⟨(C6_total_and_nonempty 1 [lineOf "no tables here"]).1 (by decide),
    (C6_total_and_nonempty 1 [lineOf "no tables here"]).2.2.2.2.2.2.2.2.1 (by decide)⟩

/-- C9: every scanning loop makes strict progress, so each parse function
terminates on every finite input.  The four table scanners are iteration
bounded by the line count — granting any extra budget beyond the count of
lines (or, for the packed shear-group loop, of tokens) cannot change the
result, because the loop has already finished within that bound — and the
eigenvalue row loop consumes at least one line per accepted row.
parse_eigenvalues and is_completed are single-pass structural recursions in
this embedding. -/
theorem C9_termination (sc : Int) (ls : List Line) (ts : List Token) (k : Nat) :
    pdOuter sc (ls.length + k) ls = parse_displacements ls sc ∧
      rodOuter sc (ls.length + k) ls = parse_rod_stresses ls sc ∧
      shearOuter sc (ls.length + k) ls = parse_shear_stresses ls sc ∧
      memOuter sc (ls.length + k) ls = parse_membrane_stresses ls sc ∧
      shearGroups (ts.length + k) ts = shearGroups ts.length ts ∧
      (evRows ls).length ≤ ls.length := by
  refine ⟨?_, ?_, ?_, ?_, ?_, ?_⟩
  · exact pdOuter_fuel_congr sc (ls.length + k) ls.length ls (by omega) (Nat.le_refl _)
  · exact rodOuter_fuel_congr sc (ls.length + k) ls.length ls (by omega) (Nat.le_refl _)
  · exact shearOuter_fuel_congr sc (ls.length + k) ls.length ls (by omega) (Nat.le_refl _)
  · exact memOuter_fuel_congr sc (ls.length + k) ls.length ls (by omega) (Nat.le_refl _)
  · exact shearGroups_fuel_congr (ts.length + k) ts.length ts (by omega) (Nat.le_refl _)
  · induction ls with
    | nil => simp [evRows]
    | cons l rest ih =>
        rw [evRows]
        split
        · simp
        · split
          · exact Nat.le_trans ih (Nat.le_succ _)
          · split
            · exact Nat.le_trans ih (Nat.le_succ _)
            · split
              · split
                · simpa using ih
                · exact Nat.le_trans ih (Nat.le_succ _)
              · exact Nat.le_trans ih (Nat.le_succ _)

/-- C1, counterexample: node-ID uniqueness is not enforced by the parser; a
displacement table whose data rows repeat a node ID yields a record with
duplicate node IDs. -/
theorem C1_counterexample :
    ¬ ∀ r ∈ parse_displacements
        [ lineOf "  D I S P L A C E M E N T   V E C T O R"
        , lineOf "  POINT ID.  TYPE  T1 T2 T3 R1 R2 R3"
        , lineOf "  7 G 1.0 2.0 3.0 4.0 5.0 6.0"
        , lineOf "  7 G 1.0 2.0 3.0 4.0 5.0 6.0" ] 1,
      r.node_ids.Nodup := by decide

/-- C1, amended: for every input document, every DisplacementResult
satisfies the equal-length invariant (one translation triple and one
rotation triple per node); node-ID uniqueness is a property of well-formed
engine output, not enforced by the parser, and fails when the document
repeats a node row. -/
theorem C1_record_invariant (lines : List Line) (sc : Int) (r : DisplacementResult)
    (h : r ∈ parse_displacements lines sc) :
    r.node_ids.length = r.translations.length ∧
      r.node_ids.length = r.rotations.length := by
  obtain ⟨rows, -, rfl⟩ := pdOuter_mem sc lines.length lines r h
  simp [mkDispResult]

/-- C1, witness: the equal-length invariant evaluated on the record parsed
from a concrete one-row displacement table. -/
theorem C1_witness :
    ({ node_ids := [11]
     , translations := [(lineOf "0.0", lineOf "6.326195E-04", lineOf "3.889221E-02")]
     , rotations := [(lineOf "0.0", lineOf "0.0", lineOf "0.0")]
     , subcase := 1 } : DisplacementResult).node_ids.length =
        ({ node_ids := [11]
         , translations := [(lineOf "0.0", lineOf "6.326195E-04", lineOf "3.889221E-02")]
         , rotations := [(lineOf "0.0", lineOf "0.0", lineOf "0.0")]
         , subcase := 1 } : DisplacementResult).translations.length ∧
      ({ node_ids := [11]
       , translations := [(lineOf "0.0", lineOf "6.326195E-04", lineOf "3.889221E-02")]
       , rotations := [(lineOf "0.0", lineOf "0.0", lineOf "0.0")]
       , subcase := 1 } : DisplacementResult).node_ids.length =
        ({ node_ids := [11]
         , translations := [(lineOf "0.0", lineOf "6.326195E-04", lineOf "3.889221E-02")]
         , rotations := [(lineOf "0.0", lineOf "0.0", lineOf "0.0")]
         , subcase := 1 } : DisplacementResult).rotations.length :=
  C1_record_invariant
    [ lineOf "      D I S P L A C E M E N T   V E C T O R"
    , lineOf "      POINT ID.   TYPE     T1   T2   T3   R1   R2   R3"
    , lineOf "  11 G 0.0 6.326195E-04 3.889221E-02 0.0 0.0 0.0"
    , lineOf "1 next page" ] 1
    { node_ids := [11]
    , translations := [(lineOf "0.0", lineOf "6.326195E-04", lineOf "3.889221E-02")]
    , rotations := [(lineOf "0.0", lineOf "0.0", lineOf "0.0")]
    , subcase := 1 }
    (by decide)

/-- C2, counterexample: in the eigenvalue parser a row that fails numeric
conversion does not terminate row accumulation — the mode-2 row after the
unparseable row is still collected, so the result is [1, 2] where the claim
predicts [1]. -/
theorem C2_counterexample :
    (parse_eigenvalues
          [ lineOf "  R E A L   E I G E N V A L U E S"
          , lineOf "  MODE"
          , lineOf "  1 1 1.0 1.0 1.0 1.0 1.0"
          , lineOf "  X X X X X X X"
          , lineOf "  2 2 2.0 2.0 2.0 2.0 2.0" ]).map (fun r => r.mode_numbers) =
        some [1, 2] ∧
      (parse_eigenvalues
          [ lineOf "  R E A L   E I G E N V A L U E S"
          , lineOf "  MODE"
          , lineOf "  1 1 1.0 1.0 1.0 1.0 1.0"
          , lineOf "  X X X X X X X"
          , lineOf "  2 2 2.0 2.0 2.0 2.0 2.0" ]).map (fun r => r.mode_numbers) ≠
        some [1] := by
  constructor
  · decide
  · decide

/-- C2, amended: for every line of every document, in the displacement,
rod and membrane parsers the first row inside a table failing numeric
conversion or the kind's field-count minimum terminates row accumulation
(while every converting row of sufficient width is accumulated and the
loop moves on), prior rows are kept, no exception is raised, and the rest
of the document is still scanned from the stop line; the eigenvalue parser
instead skips a short or failing row and keeps accumulating; the shear
parser ends the table only when a line's first packed group fails, and
keeps the parsed prefix of a line whose later group fails. -/
theorem C2_malformed_row_policy :
    (∀ (l : Line) (rest : List Line) (row : DispRow),
        is_page_break l = false → is_double_space l = false →
        (pyStrip l).isEmpty = false →
        8 ≤ (pySplit (pyStrip l)).length →
        dispRowParse (pySplit (pyStrip l)) = some row →
        pdRows (l :: rest) = (row :: (pdRows rest).1, (pdRows rest).2)) ∧
      (∀ (l : Line) (rest : List Line),
        is_page_break l = false → is_double_space l = false →
        (pyStrip l).isEmpty = false →
        ((pySplit (pyStrip l)).length < 8 ∨ dispRowParse (pySplit (pyStrip l)) = none) →
        pdRows (l :: rest) = ([], l :: rest)) ∧
      (∀ (l : Line) (rest : List Line),
        is_page_break l = false → is_double_space l = false →
        (pyStrip l).isEmpty = false →
        ((pySplit (pyStrip l)).length < 4 ∨ rodRowParse (pySplit (pyStrip l)) = none) →
        rodRows (l :: rest) = ([], l :: rest)) ∧
      (∀ (l : Line) (rest : List Line),
        is_page_break l = false → is_double_space l = false →
        (pyStrip l).isEmpty = false →
        ((pySplit (pyStrip l)).length < 8 ∨ memRowParse (pySplit (pyStrip l)) = none) →
        memRows (l :: rest) = ([], l :: rest)) ∧
      (∀ (l : Line) (rest : List Line),
        is_page_break l = false → (pyStrip l).isEmpty = false →
        (pyStrip l).head? ≠ some '*' → (pyStrip l).head? ≠ some '+' →
        containsSub msgMark (pyStrip l) = false →
        ((pySplit (pyStrip l)).length < 7 ∨ evRowParse (pySplit (pyStrip l)) = none) →
        evRows (l :: rest) = evRows rest) ∧
      (∀ (l : Line) (rest : List Line),
        is_page_break l = false → is_double_space l = false →
        (pyStrip l).isEmpty = false →
        (shearGroups (pySplit (pyStrip l)).length (pySplit (pyStrip l))).1 = [] →
        (shearGroups (pySplit (pyStrip l)).length (pySplit (pyStrip l))).2 = false →
        shearRows (l :: rest) = ([], l :: rest)) ∧
      (∀ (l : Line) (rest : List Line),
        is_page_break l = false → is_double_space l = false →
        (pyStrip l).isEmpty = false →
        (shearGroups (pySplit (pyStrip l)).length (pySplit (pyStrip l))).1 ≠ [] →
        shearRows (l :: rest) =
          ((shearGroups (pySplit (pyStrip l)).length (pySplit (pyStrip l))).1 ++
            (shearRows rest).1, (shearRows rest).2)) ∧
      (∀ (l : Line) (rest : List Line) (sc : Int),
        containsSub dispHeader l = true →
        parse_displacements (l :: rest) sc =
          (if (pdRows ((dropUntilContains pointIdMark rest).tail)).1.isEmpty then []
            else [mkDispResult (pdRows ((dropUntilContains pointIdMark rest).tail)).1 sc]) ++
            parse_displacements (pdRows ((dropUntilContains pointIdMark rest).tail)).2 sc) ∧
      ∀ post : List Line,
        parse_displacements
            ([ lineOf "  D I S P L A C E M E N T   V E C T O R"
             , lineOf "  POINT ID."
             , lineOf "  3 G 0.5 0.5 0.5 0.5 0.5 0.5"
             , lineOf "  BAD ROW HERE" ] ++ post) 1 =
          { node_ids := [3]
          , translations := [(lineOf "0.5", lineOf "0.5", lineOf "0.5")]
          , rotations := [(lineOf "0.5", lineOf "0.5", lineOf "0.5")]
          , subcase := 1 } :: parse_displacements post 1 := by
  have hbad : ∀ (l : Line) (rest : List Line),
      is_page_break l = false → is_double_space l = false →
      (pyStrip l).isEmpty = false →
      ((pySplit (pyStrip l)).length < 8 ∨ dispRowParse (pySplit (pyStrip l)) = none) →
      pdRows (l :: rest) = ([], l :: rest) := by
    intro l rest h1 h2 h3 h4
    rcases h4 with h4 | h4
    · rw [pdRows, if_neg (by simp [h1, h2]), if_neg (by simp [h3]), if_neg (by omega)]
    · by_cases hlen : (pySplit (pyStrip l)).length ≥ 8
      · rw [pdRows, if_neg (by simp [h1, h2]), if_neg (by simp [h3]), if_pos hlen, h4]
      · rw [pdRows, if_neg (by simp [h1, h2]), if_neg (by simp [h3]), if_neg hlen]
  refine ⟨?_, hbad, ?_, ?_, ?_, ?_, ?_, ?_, ?_⟩
  · intro l rest row h1 h2 h3 h4 h5
    rw [pdRows, if_neg (by simp [h1, h2]), if_neg (by simp [h3]), if_pos (by omega), h5]
  · intro l rest h1 h2 h3 h4
    rcases h4 with h4 | h4
    · rw [rodRows, if_neg (by simp [h1, h2]), if_neg (by simp [h3]), if_neg (by omega)]
    · by_cases hlen : (pySplit (pyStrip l)).length ≥ 4
      · rw [rodRows, if_neg (by simp [h1, h2]), if_neg (by simp [h3]), if_pos hlen, h4]
      · rw [rodRows, if_neg (by simp [h1, h2]), if_neg (by simp [h3]), if_neg hlen]
  · intro l rest h1 h2 h3 h4
    rcases h4 with h4 | h4
    · rw [memRows, if_neg (by simp [h1, h2]), if_neg (by simp [h3]), if_neg (by omega)]
    · by_cases hlen : (pySplit (pyStrip l)).length ≥ 8
      · rw [memRows, if_neg (by simp [h1, h2]), if_neg (by simp [h3]), if_pos hlen, h4]
      · rw [memRows, if_neg (by simp [h1, h2]), if_neg (by simp [h3]), if_neg hlen]
  · intro l rest h1 h2 h3 h4 h5 h6
    have hmsg : ¬(((pyStrip l).head? = some '*' || (pyStrip l).head? = some '+' ||
        containsSub msgMark (pyStrip l)) = true) := by
      simp [h3, h4, h5]
    rcases h6 with h6 | h6
    · rw [evRows, if_neg (by simp [h1]), if_neg (by simp [h2]), if_neg hmsg,
        if_neg (by omega)]
    · by_cases hlen : (pySplit (pyStrip l)).length ≥ 7
      · rw [evRows, if_neg (by simp [h1]), if_neg (by simp [h2]), if_neg hmsg,
          if_pos hlen, h6]
      · rw [evRows, if_neg (by simp [h1]), if_neg (by simp [h2]), if_neg hmsg,
          if_neg hlen]
  · intro l rest h1 h2 h3 hgs hok
    rw [shearRows, if_neg (by simp [h1, h2]), if_neg (by simp [h3]),
      if_pos (by simp [hgs, hok])]
  · intro l rest h1 h2 h3 hne
    rw [shearRows, if_neg (by simp [h1, h2]), if_neg (by simp [h3]),
      if_neg (by simp [List.isEmpty_iff, hne])]
  · intro l rest sc h
    exact parse_displacements_cons_found l rest sc h
  · intro post
    rw [List.cons_append, List.cons_append, List.cons_append, List.cons_append,
      List.nil_append]
    rw [parse_displacements_cons_found _ _ _ (by decide)]
    have hdrop : dropUntilContains pointIdMark
        (lineOf "  POINT ID." :: lineOf "  3 G 0.5 0.5 0.5 0.5 0.5 0.5" ::
          lineOf "  BAD ROW HERE" :: post) =
        lineOf "  POINT ID." :: lineOf "  3 G 0.5 0.5 0.5 0.5 0.5 0.5" ::
          lineOf "  BAD ROW HERE" :: post := by
      rw [dropUntilContains]
      exact if_pos (by decide)
    have hrow : dispRowParse (pySplit (pyStrip (lineOf "  3 G 0.5 0.5 0.5 0.5 0.5 0.5"))) =
        some ⟨3, lineOf "0.5", lineOf "0.5", lineOf "0.5",
          lineOf "0.5", lineOf "0.5", lineOf "0.5"⟩ := by decide
    have hrows : pdRows (lineOf "  3 G 0.5 0.5 0.5 0.5 0.5 0.5" ::
        lineOf "  BAD ROW HERE" :: post) =
        ([⟨3, lineOf "0.5", lineOf "0.5", lineOf "0.5",
            lineOf "0.5", lineOf "0.5", lineOf "0.5"⟩],
          lineOf "  BAD ROW HERE" :: post) := by
      rw [pdRows, if_neg (by decide), if_neg (by decide), if_pos (by decide), hrow,
        hbad (lineOf "  BAD ROW HERE") post (by decide) (by decide) (by decide)
          (Or.inl (by decide))]
    rw [hdrop, List.tail_cons, hrows]
    rw [parse_displacements_cons_not_found _ _ _ (by decide)]
    simp [mkDispResult]

/-- C2, witness: the displacement terminate-at-failure and eigenvalue
skip-and-continue policies evaluated on concrete failing rows. -/
theorem C2_witness :
    pdRows [lineOf "  BAD ROW HERE"] = ([], [lineOf "  BAD ROW HERE"]) ∧
      evRows [lineOf "  X X X X X X X"] = evRows [] :=
  ⟨C2_malformed_row_policy.2.1 (lineOf "  BAD ROW HERE") [] (by decide) (by decide)
      (by decide) (Or.inl (by decide)),
    C2_malformed_row_policy.2.2.2.2.1 (lineOf "  X X X X X X X") [] (by decide)
      (by decide) (by decide) (by decide) (by decide) (Or.inr (by decide))⟩

/-- C4, counterexample: a rod data row with fewer than 4 whitespace tokens
but a valid element id and axial stress is not emitted with torsion 0 — it
terminates accumulation, and the table yields no record at all. -/
theorem C4_counterexample :
    pyInt? (lineOf "9") = some 9 ∧ isPyFloat (lineOf "125.0") = true ∧
      parse_rod_stresses
        [ lineOf "  S T R E S S E S   I N   R O D   E L E M E N T S"
        , lineOf "  ELEMENT"
        , lineOf "    ID."
        , lineOf "  9 125.0 0.1" ] 1 = [] := by
  refine ⟨by decide, by decide, by decide⟩

/-- C4, amended: a rod data row needs at least 4 whitespace tokens to be
accepted at all — a shorter row terminates accumulation and is never
emitted — and every accepted row takes its torsion from its fourth token,
so the torsion-defaults-to-0 branch of the source is unreachable. -/
theorem C4_short_row_terminates (l : Line) (rest : List Line)
    (h1 : is_page_break l = false) (h2 : is_double_space l = false)
    (h3 : (pyStrip l).isEmpty = false)
    (h4 : (pySplit (pyStrip l)).length < 4) :
    rodRows (l :: rest) = ([], l :: rest) ∧
      ∀ parts r, rodRowParse parts = some r →
        4 ≤ parts.length ∧ parts[3]? = some r.torsion := by
  constructor
  · rw [rodRows, if_neg (by simp [h1, h2]), if_neg (by simp [h3]), if_neg (by omega)]
  · intro parts r h
    rw [rodRowParse] at h
    split at h
    · rename_i p0 p1 p3 h0 h1' h3'
      constructor
      · by_contra hlen
        rw [List.getElem?_eq_none (by omega)] at h3'
        exact absurd h3' (by simp)
      · split at h
        · split at h
          · obtain rfl : _ = r := Option.some_injective _ h
            exact h3'
          · exact absurd h (by simp)
        · exact absurd h (by simp)
    · exact absurd h (by simp)

/-- C4, witness: the first part of the amended theorem evaluated on a
concrete three-token rod row. -/
theorem C4_witness :
    rodRows [lineOf "  9 125.0 0.1"] = ([], [lineOf "  9 125.0 0.1"]) :=
  (C4_short_row_terminates (lineOf "  9 125.0 0.1") [] (by decide) (by decide)
    (by decide) (by decide)).1

/-- C5, counterexample: when a second real-eigenvalue table follows the
first without an intervening page-break line, its rows are absorbed into
the first table's result — the document below contains two tables yet the
result is [1, 2], not the first table's [1]. -/
theorem C5_counterexample :
    (parse_eigenvalues
          [ lineOf "  R E A L   E I G E N V A L U E S"
          , lineOf "   MODE   EXTRACTION"
          , lineOf "  1 1 10.0 10.0 10.0 10.0 10.0"
          , lineOf "  R E A L   E I G E N V A L U E S"
          , lineOf "   MODE   EXTRACTION"
          , lineOf "  2 2 20.0 20.0 20.0 20.0 20.0" ]).map (fun r => r.mode_numbers) =
        some [1, 2] ∧
      (parse_eigenvalues
          [ lineOf "  R E A L   E I G E N V A L U E S"
          , lineOf "   MODE   EXTRACTION"
          , lineOf "  1 1 10.0 10.0 10.0 10.0 10.0"
          , lineOf "  R E A L   E I G E N V A L U E S"
          , lineOf "   MODE   EXTRACTION"
          , lineOf "  2 2 20.0 20.0 20.0 20.0 20.0" ]).map (fun r => r.mode_numbers) ≠
        some [1] := by
  constructor
  · decide
  · decide

/-- C5, amended: parse_eigenvalues never restarts header scanning after
the first real-eigenvalue table, and its row loop stops at the first
page-break line; so for every document whose first table — any header-free
prefix, the first header line, a MODE-free gap, the MODE column-header
line, and a data region free of page-break lines — is closed by a
page-break line (one not containing the NO. marker, which the parser would
instead consume as the optional sub-header), the content after that line,
in particular any later eigenvalue table, contributes no rows, whatever it
is.  Without such a closing page break, a later table's data rows are
absorbed into the first table's record, as the counterexample shows. -/
theorem C5_first_table_only (pre m1 body post : List Line) (hdr modeLn pb : Line)
    (hpre : ∀ l ∈ pre, containsSub evHeader l = false)
    (hhdr : containsSub evHeader hdr = true)
    (hm1 : ∀ l ∈ m1, containsSub modeMark l = false)
    (hmode : containsSub modeMark modeLn = true)
    (hbody : ∀ l ∈ body, is_page_break l = false)
    (hpb : is_page_break pb = true)
    (hpbno : containsSub noMark pb = false) :
    (∀ (ls : List Line) (pbl : Line) (postl : List Line),
        (∀ l ∈ ls, is_page_break l = false) → is_page_break pbl = true →
        evRows (ls ++ pbl :: postl) = evRows ls) ∧
      (∀ a rest : List Line, (∀ l ∈ a, containsSub evHeader l = false) →
        evScan (a ++ rest) = evScan rest) ∧
      parse_eigenvalues (pre ++ hdr :: (m1 ++ modeLn :: (body ++ pb :: post))) =
        parse_eigenvalues (pre ++ hdr :: (m1 ++ modeLn :: (body ++ [pb]))) := by
  refine ⟨fun ls pbl postl h hp => evRows_append_page_break pbl postl ls h hp,
    fun a rest h => evScan_append_no_header rest a h, ?_⟩
  have hd1 : dropUntilContains modeMark (m1 ++ modeLn :: (body ++ pb :: post)) =
      modeLn :: (body ++ pb :: post) := by
    rw [dropUntilContains_append modeMark _ m1 hm1, dropUntilContains]
    exact if_pos hmode
  have hd2 : dropUntilContains modeMark (m1 ++ modeLn :: (body ++ [pb])) =
      modeLn :: (body ++ [pb]) := by
    rw [dropUntilContains_append modeMark _ m1 hm1, dropUntilContains]
    exact if_pos hmode
  have key : evScan (pre ++ hdr :: (m1 ++ modeLn :: (body ++ pb :: post))) =
      evScan (pre ++ hdr :: (m1 ++ modeLn :: (body ++ [pb]))) := by
    rw [evScan_append_no_header _ pre hpre, evScan_append_no_header _ pre hpre]
    conv_lhs => rw [evScan]
    conv_rhs => rw [evScan]
    rw [if_pos hhdr, if_pos hhdr, hd1, hd2]
    cases body with
    | nil =>
        show (if containsSub noMark pb = true then evRows post
            else evRows (pb :: post)) =
          (if containsSub noMark pb = true then evRows [] else evRows [pb])
        have hno : ¬(containsSub noMark pb = true) := by simp [hpbno]
        rw [if_neg hno, if_neg hno]
        have e1 : evRows (pb :: post) = evRows ([] ++ pb :: post) := rfl
        have e2 : evRows [pb] = evRows ([] ++ pb :: []) := rfl
        rw [e1, e2, evRows_append_page_break pb post [] (by simp) hpb,
          evRows_append_page_break pb [] [] (by simp) hpb]
    | cons n ns =>
        show (if containsSub noMark n = true then evRows (ns ++ pb :: post)
            else evRows (n :: (ns ++ pb :: post))) =
          (if containsSub noMark n = true then evRows (ns ++ [pb])
            else evRows (n :: (ns ++ [pb])))
        have hns : ∀ l ∈ ns, is_page_break l = false :=
          fun x hx => hbody x (List.mem_cons_of_mem n hx)
        by_cases hno : containsSub noMark n = true
        · rw [if_pos hno, if_pos hno,
            evRows_append_page_break pb post ns hns hpb,
            evRows_append_page_break pb [] ns hns hpb]
        · rw [if_neg hno, if_neg hno, ← List.cons_append, ← List.cons_append,
            evRows_append_page_break pb post (n :: ns) hbody hpb,
            evRows_append_page_break pb [] (n :: ns) hbody hpb]
  rw [parse_eigenvalues, parse_eigenvalues, key]

/-- C5, witness: the amended theorem applied to a concrete first table
closed by a page break and followed by a complete second eigenvalue table:
the second table contributes nothing. -/
theorem C5_witness :
    parse_eigenvalues
        [ lineOf "  R E A L   E I G E N V A L U E S"
        , lineOf "   MODE"
        , lineOf "  1 1 10.0 10.0 10.0 10.0 10.0"
        , lineOf "1PAGE"
        , lineOf "  R E A L   E I G E N V A L U E S"
        , lineOf "   MODE"
        , lineOf "  9 9 90.0 90.0 90.0 90.0 90.0" ] =
      parse_eigenvalues
        [ lineOf "  R E A L   E I G E N V A L U E S"
        , lineOf "   MODE"
        , lineOf "  1 1 10.0 10.0 10.0 10.0 10.0"
        , lineOf "1PAGE" ] :=
  (C5_first_table_only [] [] [lineOf "  1 1 10.0 10.0 10.0 10.0 10.0"]
      [ lineOf "  R E A L   E I G E N V A L U E S", lineOf "   MODE"
      , lineOf "  9 9 90.0 90.0 90.0 90.0 90.0" ]
      (lineOf "  R E A L   E I G E N V A L U E S") (lineOf "   MODE") (lineOf "1PAGE")
      (by decide) (by decide) (by decide) (by decide) (by decide) (by decide)
      (by decide)).2.2

/-- C8, counterexample: a document with displacement tables for two
subcases yields two records both tagged with the default subcase 1 — the
aggregating _parse_results never assigns distinct positional subcase
numbers. -/
theorem C8_counterexample :
    ((parse_results (String.toList
          ("  D I S P L A C E M E N T   V E C T O R\n  POINT ID.\n" ++
            "  1 G 1.0 1.0 1.0 1.0 1.0 1.0\n1PAGE\n" ++
            "  D I S P L A C E M E N T   V E C T O R\n  POINT ID.\n" ++
            "  2 G 2.0 2.0 2.0 2.0 2.0 2.0\n"))).displacements.map
        (fun r => r.subcase)) = [1, 1] ∧
      ((parse_results (String.toList
          ("  D I S P L A C E M E N T   V E C T O R\n  POINT ID.\n" ++
            "  1 G 1.0 1.0 1.0 1.0 1.0 1.0\n1PAGE\n" ++
            "  D I S P L A C E M E N T   V E C T O R\n  POINT ID.\n" ++
            "  2 G 2.0 2.0 2.0 2.0 2.0 2.0\n"))).displacements.map
        (fun r => r.subcase)) ≠ [1, 2] := by
  constructor
  · decide
  · decide

/-- C8, amended: the aggregator _parse_results invokes every parser with
the default subcase, so every record of a run is tagged subcase 1 whatever
the document contains — the subcase parameter exists for callers, but the
aggregator never passes a different value, and the number is never parsed
from the document text. -/
theorem C8_subcase_always_default (output : List Char) :
    (∀ r ∈ (parse_results output).displacements, r.subcase = 1) ∧
      (∀ r ∈ (parse_results output).stresses, r.subcase = 1) := by
  constructor
  · intro r hr
    have hr' : r ∈ parse_displacements (splitlines output) 1 := hr
    obtain ⟨rows, -, rfl⟩ := pdOuter_mem 1 (splitlines output).length (splitlines output) r hr'
    rfl
  · intro r hr
    have hr' : r ∈ parse_rod_stresses (splitlines output) 1 ++
        parse_shear_stresses (splitlines output) 1 ++
        parse_membrane_stresses (splitlines output) 1 := hr
    rw [List.mem_append, List.mem_append] at hr'
    rcases hr' with (hr' | hr') | hr'
    · obtain ⟨rows, -, rfl⟩ :=
        rodOuter_mem 1 (splitlines output).length (splitlines output) r hr'
      rfl
    · obtain ⟨rows, -, rfl⟩ :=
        shearOuter_mem 1 (splitlines output).length (splitlines output) r hr'
      rfl
    · obtain ⟨rows, et, -, -, rfl⟩ :=
        memOuter_mem 1 (splitlines output).length (splitlines output) r hr'
      rfl

/-- C8, witness: the record parsed from a concrete one-table document
carries subcase 1 by the amended theorem. -/
theorem C8_witness :
    ({ node_ids := [4]
     , translations := [(lineOf "1.5", lineOf "1.5", lineOf "1.5")]
     , rotations := [(lineOf "1.5", lineOf "1.5", lineOf "1.5")]
     , subcase := 1 } : DisplacementResult).subcase = 1 :=
  (C8_subcase_always_default (String.toList
      ("  D I S P L A C E M E N T   V E C T O R\n  POINT ID.\n" ++
        "  4 G 1.5 1.5 1.5 1.5 1.5 1.5\n"))).1
    { node_ids := [4]
    , translations := [(lineOf "1.5", lineOf "1.5", lineOf "1.5")]
    , rotations := [(lineOf "1.5", lineOf "1.5", lineOf "1.5")]
    , subcase := 1 }
    (by decide)

end PyNastran
